import Mathlib

/-!
Verification of `packages/shikiji/src/core/bundle-factory.ts` (shikiji).

The file shallowly embeds the bundle factory: the pure resolvers
(`resolveLang`, `resolveTheme`), the higher-order `getHighlighter`
produced by `createdBundledHighlighter`, and the singleton coordinator
produced by `createSingletonShorthands` (`getShikiWithThemeLang` and the
`codeToHtmlThemes` shorthand).

JavaScript async semantics are modelled as an explicit state machine:
under the JS run-to-completion discipline, the code between a function's
entry and its first `await` (or `return`) executes atomically, and each
resumption after an `await` is again atomic.  `getShikiWithThemeLang`
therefore decomposes into an atomic entry segment (`ensureStart`, the
`if (!_shiki)` check-and-set), the settlement of the construction promise
(`settleConstruction`), and the atomic resumption of the `else` branch
after its `await`s (`ensureResume`).  Promises are entries of the
factory state, identified by a numeric token; two callers holding the
same token await the same promise and hence receive the same settled
value.

Collaborators that the sample imports from `./utils`, `./core` and
`../types` (namely `isPlaintext`, `toArray`, `getHighlighterCore`,
`MaybeArray`) are not part of the sample; they are modelled from the
spec, each marked `Modelled from the spec:` in its doc comment.
-/

namespace Shikiji

/-- Modelled from the spec: an inline grammar rule of a language
definition.  `LanguageRegistration` is opaque to the factory layer
(§1: the engine is a black box); a free record stands for it. -/
structure LangRegistration where
  scopeName : String
deriving DecidableEq, Repr

/-- Modelled from the spec: `LanguageInput` (from `../types`), the
concrete language definition the engine accepts.  A rule set; the empty
list is the empty rule set the plaintext marker resolves to (§3). -/
def LanguageInput : Type := List LangRegistration
deriving instance DecidableEq, Repr for LanguageInput

/-- Modelled from the spec: an inline theme definition, opaque to the
factory layer (§1). -/
structure ThemeInput where
  themeName : String
deriving DecidableEq, Repr

/-- A user-supplied language reference: a bundle-id string (including
the plaintext marker) or an inline definition.  Source type
`LanguageInput | BundledLangs | PlainTextLanguage` at line 20. -/
inductive LangRefU where
  | str (id : String)
  | inline (v : LanguageInput)
deriving DecidableEq, Repr

/-- A user-supplied theme reference: a bundle-id string or an inline
definition.  Source type `ThemeInput | BundledThemes` at line 32. -/
inductive ThemeRefU where
  | str (id : String)
  | inline (v : ThemeInput)
deriving DecidableEq, Repr

/-- The kind tag of a `NotBundled` error (§7). -/
inductive RefKind where
  | language
  | theme
deriving DecidableEq, Repr

/-- Errors surfaced by this layer: `NotBundled(kind, id)` for the two
`throw new Error` sites of the resolvers, and an opaque engine failure
(§7 `EngineFailure`, propagated unchanged). -/
inductive Err where
  | notBundled (kind : RefKind) (id : String)
  | engine (msg : String)
deriving DecidableEq, Repr

/-- A bundle table: a finite mapping from id to definition, fixed for
the factory's lifetime (§3 BundleTables). -/
def Table (α : Type) : Type := List (String × α)

instance {α : Type} [DecidableEq α] : DecidableEq (Table α) :=
  inferInstanceAs (DecidableEq (List (String × α)))

/-- Lookup in a bundle table, mirroring `bundledLanguages[lang]`
followed by the `if (!bundle)` truthiness test (table values are
objects, hence truthy exactly when present). -/
def Table.get? {α : Type} (t : Table α) (id : String) : Option α :=
  List.lookup id t

/-- Modelled from the spec: `isPlaintext` (from `./utils`, not in the
sample) recognizes the special plaintext marker of a
LanguageReference (§3). -/
def isPlaintext (lang : String) : Bool :=
  lang = "plaintext"

/-- Source lines 20-30: `resolveLang`.  A string that is the plaintext
marker resolves to the empty rule set; any other string is looked up in
the language table, absence raising `NotBundled`; a non-string reference
is returned unchanged. -/
def resolveLang (bundledLanguages : Table LanguageInput) :
    LangRefU → Except Err LanguageInput
  | .str lang =>
    if isPlaintext lang then .ok []
    else
      match bundledLanguages.get? lang with
      | some bundle => .ok bundle
      | none => .error (.notBundled .language lang)
  | .inline v => .ok v

/-- Source lines 32-40: `resolveTheme`.  A string is looked up in the
theme table, absence raising `NotBundled`; a non-string reference is
returned unchanged. -/
def resolveTheme (bundledThemes : Table ThemeInput) :
    ThemeRefU → Except Err ThemeInput
  | .str theme =>
    match bundledThemes.get? theme with
    | some bundle => .ok bundle
    | none => .error (.notBundled .theme theme)
  | .inline v => .ok v

/-- JavaScript `array.map(f)` with a callback that may throw: the
elements are visited left to right and the first exception aborts the
whole map (fail-fast, no partial result). -/
def mapOrThrow {α β : Type} (f : α → Except Err β) : List α → Except Err (List β)
  | [] => .ok []
  | a :: l =>
    match f a with
    | .error e => .error e
    | .ok b =>
      match mapOrThrow f l with
      | .error e => .error e
      | .ok bs => .ok (b :: bs)

/-- Options accepted by `getHighlighter`
(`BundledHighlighterOptions`): optional `themes` and `langs` lists; an
absent field is defaulted to `[]` by `options.themes ?? []` /
`options.langs ?? []` (source lines 43-46). -/
structure HighlighterOptions where
  themes? : Option (List ThemeRefU) := none
  langs? : Option (List LangRefU) := none
deriving DecidableEq, Repr

/-- The resolved options handed to the engine constructor (the
`themes`/`langs` fields of the object literal at lines 48-52). -/
structure CoreOptions where
  themes : List ThemeInput
  langs : List LanguageInput
deriving DecidableEq, Repr

/-- Source lines 43-46: resolve every requested theme, then every
requested language, failing on the first unresolved id (`.map` with a
throwing callback is fail-fast, and `_themes` is computed before
`langs`). -/
def resolveOptions (bl : Table LanguageInput) (bt : Table ThemeInput)
    (options : HighlighterOptions) : Except Err CoreOptions :=
  match mapOrThrow (fun i => resolveTheme bt i) (options.themes?.getD []) with
  | .error e => .error e
  | .ok _themes =>
    match mapOrThrow (fun i => resolveLang bl i) (options.langs?.getD []) with
    | .error e => .error e
    | .ok langs => .ok { themes := _themes, langs := langs }

/-- The engine instance's observable state: the grammars and themes it
currently holds loaded (§3 HighlighterInstance, mutated in place by
incremental loads; modelled by value passing). -/
structure CoreInst where
  themes : List ThemeInput
  langs : List LanguageInput
deriving DecidableEq, Repr

/-- Modelled from the spec: the engine constructor `create` /
`getHighlighterCore` (§6) returns an instance holding exactly the
initial load set. -/
def getHighlighterCore (opts : CoreOptions) : CoreInst :=
  { themes := opts.themes, langs := opts.langs }

/-- Modelled from the spec: `instance.loadTheme` (§6) is incremental and
idempotent: definitions not yet held are appended; already-loaded ones
are a no-op. -/
def CoreInst.loadThemeC (c : CoreInst) (ts : List ThemeInput) : CoreInst :=
  { c with themes := c.themes ++ ts.filter (fun t => ¬ c.themes.contains t) }

/-- Modelled from the spec: `instance.loadLanguage` (§6), incremental
and idempotent like `loadTheme`. -/
def CoreInst.loadLanguageC (c : CoreInst) (ls : List LanguageInput) : CoreInst :=
  { c with langs := c.langs ++ ls.filter (fun l => ¬ c.langs.contains l) }

/-- Options of a render call, opaque to the factory layer (only
forwarded). -/
structure RenderOptions where
  theme : Option String := none
  lang : Option String := none
deriving DecidableEq, Repr

/-- Render results, modelled freely: the engine is a black box, so each
entry point's output is a constructor applied to the instance state and
the arguments (distinct inputs give distinct outputs, nothing more is
assumed). -/
inductive RenderOut where
  | html (c : CoreInst) (code : String) (opts : RenderOptions)
  | tokens (c : CoreInst) (code : String) (opts : RenderOptions)
  | htmlThemes (c : CoreInst) (code : String) (opts : RenderOptions)
deriving DecidableEq, Repr

/-- The engine object `core` returned by `getHighlighterCore` (source
line 48): its entry points as record fields.  The two loading entry
points take already-resolved definitions and yield the updated instance
state (mutation modelled by value passing). -/
structure CoreObj where
  codeToHtml : String → RenderOptions → RenderOut
  codeToThemedTokens : String → RenderOptions → RenderOut
  codeToHtmlThemes : String → RenderOptions → RenderOut
  loadLanguage : List LanguageInput → CoreInst
  loadTheme : List ThemeInput → CoreInst

/-- The wrapper object a successful `getHighlighter` call returns
(source lines 54-65): same entry points, but the loading ones accept
user references (bundle ids or inline definitions) and may fail in
resolution. -/
structure HighlighterObj where
  codeToHtml : String → RenderOptions → RenderOut
  codeToThemedTokens : String → RenderOptions → RenderOut
  codeToHtmlThemes : String → RenderOptions → RenderOut
  loadLanguage : List LangRefU → Except Err CoreInst
  loadTheme : List ThemeRefU → Except Err CoreInst

/-- Source lines 54-65: the object literal `{ ...core, codeToHtml(...),
loadLanguage(...), loadTheme(...) }`.  The spread copies
`codeToThemedTokens` and `codeToHtmlThemes` unchanged; `codeToHtml`
delegates argument-for-argument; `loadLanguage`/`loadTheme` map each
argument through the resolver (throwing on an unknown id) and hand the
resolved definitions to the engine. -/
def wrapCore (bl : Table LanguageInput) (bt : Table ThemeInput)
    (core : CoreObj) : HighlighterObj where
  codeToHtml := fun code options => core.codeToHtml code options
  codeToThemedTokens := core.codeToThemedTokens
  codeToHtmlThemes := core.codeToHtmlThemes
  loadLanguage := fun langs =>
    (mapOrThrow (fun l => resolveLang bl l) langs).map core.loadLanguage
  loadTheme := fun themes =>
    (mapOrThrow (fun t => resolveTheme bt t) themes).map core.loadTheme

/-- Entry points of a concrete engine instance, as the free black-box
functions over its state. -/
def coreObjOf (c : CoreInst) : CoreObj where
  codeToHtml := fun code opts => .html c code opts
  codeToThemedTokens := fun code opts => .tokens c code opts
  codeToHtmlThemes := fun code opts => .htmlThemes c code opts
  loadLanguage := c.loadLanguageC
  loadTheme := c.loadThemeC

/-- Source lines 19-66: the `getHighlighter` function produced by
`createdBundledHighlighter`, parameterized by the engine constructor
(which may itself fail, §7 EngineFailure): resolve all references, then
construct, then wrap. -/
def getHighlighterWith (mkCore : CoreOptions → Except Err CoreObj)
    (bl : Table LanguageInput) (bt : Table ThemeInput)
    (options : HighlighterOptions) : Except Err HighlighterObj :=
  match resolveOptions bl bt options with
  | .error e => .error e
  | .ok copts =>
    match mkCore copts with
    | .error e => .error e
    | .ok core => .ok (wrapCore bl bt core)

/-- The `getHighlighter` of the sample with the spec-modelled engine
constructor (which always succeeds). -/
def getHighlighter (bl : Table LanguageInput) (bt : Table ThemeInput)
    (options : HighlighterOptions) : Except Err HighlighterObj :=
  getHighlighterWith (fun o => .ok (coreObjOf (getHighlighterCore o))) bl bt options

/-- Instance-state view of `getHighlighter`: the engine state behind
the wrapper a successful call returns (used by the singleton machine,
which tracks instance state). -/
def getHighlighterInst (bl : Table LanguageInput) (bt : Table ThemeInput)
    (options : HighlighterOptions) : Except Err CoreInst :=
  (resolveOptions bl bt options).map getHighlighterCore

/-- Modelled from the spec: `MaybeArray` (from `../types`), a single
value or a list (§4.3 "theme(s), lang(s)"). -/
inductive MaybeArray (α : Type) where
  | one (a : α)
  | arr (l : List α)
deriving DecidableEq, Repr

/-- Modelled from the spec: `toArray` (from `./utils`) flattens a
`MaybeArray` into a list. -/
def toArray {α : Type} : MaybeArray α → List α
  | .one a => [a]
  | .arr l => l

/-- Argument of `getShikiWithThemeLang` (source line 74): bundled theme
and language ids, single or in lists. -/
structure EnsureOpts where
  theme : MaybeArray String
  lang : MaybeArray String
deriving DecidableEq, Repr

/-- The state of the construction promise held in the `_shiki` slot:
still pending with the initial options passed to `getHighlighter`, or
settled (fulfilled with the instance / rejected with an error). -/
inductive PromState where
  | pending (opts : HighlighterOptions)
  | ready (inst : CoreInst)
  | failed (e : Err)
deriving DecidableEq, Repr

/-- State of one singleton factory (one `createSingletonShorthands`
closure): the hidden `_shiki` slot — absent, or a promise identified by
a numeric token together with its state — plus a fresh-token counter
and the count of `getHighlighter` invocations made so far (the
construction count of spec §8). -/
structure FactoryState where
  slot : Option (Nat × PromState)
  nextId : Nat
  constructions : Nat
deriving DecidableEq, Repr

/-- The state of a freshly created factory: slot empty, nothing
constructed. -/
def initState : FactoryState :=
  { slot := none, nextId := 0, constructions := 0 }

/-- Source lines 75-81 (and the `else` line 82 up to its first
`await`): the atomic entry segment of `getShikiWithThemeLang`.  If the
slot is empty, `getHighlighter` is invoked with the requested themes
and languages as the initial load set and the resulting (pending)
promise is stored and handed to the caller; otherwise the caller is
handed the existing promise to await.  Returns the new state and the
token of the promise the caller awaits. -/
def ensureStart (st : FactoryState) (opts : EnsureOpts) :
    FactoryState × Nat :=
  match st.slot with
  | none =>
    ({ slot := some (st.nextId, .pending
         { themes? := some ((toArray opts.theme).map .str),
           langs? := some ((toArray opts.lang).map .str) }),
       nextId := st.nextId + 1,
       constructions := st.constructions + 1 }, st.nextId)
  | some (i, _) => (st, i)

/-- Settlement of the in-flight construction: the body of
`getHighlighter` (resolution then engine construction) runs and the
pending promise becomes fulfilled or rejected.  A settled slot or an
empty slot is left unchanged. -/
def settleConstruction (bl : Table LanguageInput) (bt : Table ThemeInput)
    (st : FactoryState) : FactoryState :=
  match st.slot with
  | some (i, .pending opts) =>
    { st with slot := some (i,
        match getHighlighterInst bl bt opts with
        | .ok c => .ready c
        | .error e => .failed e) }
  | _ => st

/-- Source lines 82-89: the resumption of the `else` branch once the
awaited `_shiki` promise has settled.  Awaiting a rejected promise
re-raises its error and touches nothing.  On a fulfilled promise the
wrapper's `loadTheme` and `loadLanguage` are both issued
(`Promise.all`) with the requested ids and the extended instance is
returned after both complete; a resolution failure inside a load
rejects the call.  Resuming on an unsettled slot cannot happen in the
source (the caller just awaited that promise); it is mapped to an
error and an unchanged state. -/
def ensureResume (bl : Table LanguageInput) (bt : Table ThemeInput)
    (st : FactoryState) (opts : EnsureOpts) :
    FactoryState × Except Err CoreInst :=
  match st.slot with
  | some (i, .ready s) =>
    match mapOrThrow (fun t => resolveTheme bt (.str t)) (toArray opts.theme),
          mapOrThrow (fun l => resolveLang bl (.str l)) (toArray opts.lang) with
    | .ok ts, .ok ls =>
      let s2 := (s.loadThemeC ts).loadLanguageC ls
      ({ st with slot := some (i, .ready s2) }, .ok s2)
    | .error e, _ => (st, .error e)
    | .ok _, .error e => (st, .error e)
  | some (_, .failed e) => (st, .error e)
  | some (_, .pending _) => (st, .error (.engine "resumed before settlement"))
  | none => (st, .error (.engine "resumed before settlement"))

/-- One atomic step of the factory's event loop: an entry segment of
some call, the settlement of the construction, or the resumption of an
`else`-branch caller. -/
inductive Step (bl : Table LanguageInput) (bt : Table ThemeInput) :
    FactoryState → FactoryState → Prop where
  | start (st : FactoryState) (opts : EnsureOpts) :
      Step bl bt st (ensureStart st opts).1
  | settle (st : FactoryState) :
      Step bl bt st (settleConstruction bl bt st)
  | resume (st : FactoryState) (opts : EnsureOpts) :
      Step bl bt st (ensureResume bl bt st opts).1

/-- States a factory can reach from creation by any interleaving of
calls. -/
inductive Reachable (bl : Table LanguageInput) (bt : Table ThemeInput) :
    FactoryState → Prop where
  | init : Reachable bl bt initState
  | step {st st' : FactoryState} :
      Reachable bl bt st → Step bl bt st st' → Reachable bl bt st'

/-- Source line 124: `Object.values(options.themes).filter(Boolean)`.
The mapping from theme role to optional theme id is its (ordered) list
of entries; `undefined` values are `none`; `filter(Boolean)` keeps the
values that are truthy as JS strings, dropping `undefined` and the
(falsy) empty string. -/
def collectThemeValues (themes : List (String × Option String)) :
    List String :=
  (themes.map Prod.snd).filterMap (fun v =>
    match v with
    | none => none
    | some s => if s = "" then none else some s)

/-- Source lines 121-125: the options `codeToHtmlThemes` passes to
`getShikiWithThemeLang` — the language, and the collected theme values
as the theme list. -/
def codeToHtmlThemesOpts (lang : String)
    (themes : List (String × Option String)) : EnsureOpts :=
  { lang := .one lang, theme := .arr (collectThemeValues themes) }

lemma mapOrThrow_ok_mem {α β : Type} {f : α → Except Err β} {l : List α}
    {bs : List β} (h : mapOrThrow f l = .ok bs) {r : α} (hr : r ∈ l) :
    ∃ b, f r = .ok b := by
  induction l generalizing bs with
  | nil => cases hr
  | cons a l ih =>
    rw [mapOrThrow] at h
    cases hfa : f a with
    | error e => rw [hfa] at h; cases h
    | ok b =>
      rw [hfa] at h
      cases hml : mapOrThrow f l with
      | error e => rw [hml] at h; cases h
      | ok bs' =>
        rcases List.mem_cons.mp hr with rfl | hr'
        · exact ⟨b, hfa⟩
        · exact ih hml hr'

lemma mapOrThrow_error_mem {α β : Type} {f : α → Except Err β} {l : List α}
    {e : Err} (h : mapOrThrow f l = .error e) :
    ∃ r ∈ l, f r = .error e := by
  induction l with
  | nil => rw [mapOrThrow] at h; cases h
  | cons a l ih =>
    rw [mapOrThrow] at h
    cases hfa : f a with
    | error e' =>
      rw [hfa] at h
      cases h
      exact ⟨a, List.mem_cons_self a l, hfa⟩
    | ok b =>
      rw [hfa] at h
      cases hml : mapOrThrow f l with
      | error e' =>
        rw [hml] at h
        cases h
        obtain ⟨r, hrl, hre⟩ := ih hml
        exact ⟨r, List.mem_cons_of_mem a hrl, hre⟩
      | ok bs => rw [hml] at h; cases h

lemma mapOrThrow_error_of_mem {α β : Type} {f : α → Except Err β} {l : List α}
    {r : α} (hr : r ∈ l) {e : Err} (hf : f r = .error e) :
    ∃ e', mapOrThrow f l = .error e' ∧ ∃ r' ∈ l, f r' = .error e' := by
  cases hml : mapOrThrow f l with
  | error e' => exact ⟨e', rfl, mapOrThrow_error_mem hml⟩
  | ok bs =>
    obtain ⟨b, hb⟩ := mapOrThrow_ok_mem hml hr
    rw [hb] at hf
    cases hf



lemma resolveTheme_error_shape {bt : Table ThemeInput} {r : ThemeRefU} {e : Err}
    (h : resolveTheme bt r = .error e) :
    ∃ id, e = .notBundled .theme id ∧ r = .str id ∧ bt.get? id = none := by
  cases r with
  | str id =>
    rw [resolveTheme] at h
    cases hg : bt.get? id with
    | some v => rw [hg] at h; cases h
    | none => rw [hg] at h; cases h; exact ⟨id, rfl, rfl, hg⟩
  | inline v => rw [resolveTheme] at h; cases h

lemma resolveLang_error_shape {bl : Table LanguageInput} {r : LangRefU} {e : Err}
    (h : resolveLang bl r = .error e) :
    ∃ id, e = .notBundled .language id ∧ r = .str id ∧
      isPlaintext id = false ∧ bl.get? id = none := by
  cases r with
  | str id =>
    rw [resolveLang] at h
    by_cases hp : isPlaintext id
    · rw [if_pos hp] at h; cases h
    · rw [if_neg hp] at h
      cases hg : bl.get? id with
      | some v => rw [hg] at h; cases h
      | none =>
        rw [hg] at h; cases h
        exact ⟨id, rfl, rfl, Bool.not_eq_true _ ▸ eq_false_of_ne_true (by simpa using hp), hg⟩
  | inline v => rw [resolveLang] at h; cases h

/-- C3: for every bundle table, whether or not it contains a
`"plaintext"` key, `resolveLang` applied to the plaintext marker
returns the empty rule set and never fails. -/
theorem resolveLang_plaintext (bl : Table LanguageInput) :
    resolveLang bl (.str "plaintext") = .ok [] := rfl

/-- C2 counterexample: when the language table itself contains the key
`"plaintext"`, `resolveLang` does not return the table's value for that
key (the plaintext check wins), refuting the claim's unrestricted
"every key of the table" clause. -/
theorem resolveLang_table_counterexample :
    Table.get? [("plaintext", ([⟨"r"⟩] : LanguageInput))] "plaintext"
      = some [⟨"r"⟩] ∧
    resolveLang [("plaintext", ([⟨"r"⟩] : LanguageInput))] (.str "plaintext")
      ≠ .ok [⟨"r"⟩] := by
  constructor
  · rfl
  · intro h
    have : ([] : LanguageInput) = [⟨"r"⟩] := by
      have h0 : resolveLang [("plaintext", ([⟨"r"⟩] : LanguageInput))]
          (.str "plaintext") = .ok [] := rfl
      exact Except.ok.inj (h0.symm.trans h)
    cases this

/-- C2 (amended): for every non-plaintext string id present in the
language table, `resolveLang` returns exactly the table's value, and for
every non-plaintext string id absent from it, it fails with
`NotBundled(Language, id)`; `resolveTheme` behaves analogously on the
theme table (every string id, no plaintext case); a non-string reference
is returned unchanged by both. -/
theorem resolve_table_contract (bl : Table LanguageInput) (bt : Table ThemeInput) :
    (∀ id v, isPlaintext id = false → bl.get? id = some v →
      resolveLang bl (.str id) = .ok v) ∧
    (∀ id, isPlaintext id = false → bl.get? id = none →
      resolveLang bl (.str id) = .error (.notBundled .language id)) ∧
    (∀ id v, bt.get? id = some v → resolveTheme bt (.str id) = .ok v) ∧
    (∀ id, bt.get? id = none →
      resolveTheme bt (.str id) = .error (.notBundled .theme id)) ∧
    (∀ v, resolveLang bl (.inline v) = .ok v) ∧
    (∀ v, resolveTheme bt (.inline v) = .ok v) := by
  refine ⟨?_, ?_, ?_, ?_, fun v => rfl, fun v => rfl⟩
  · intro id v hp hv
    rw [resolveLang, if_neg (by simp [hp]), hv]
  · intro id hp hv
    rw [resolveLang, if_neg (by simp [hp]), hv]
  · intro id v hv
    rw [resolveTheme, hv]
  · intro id hv
    rw [resolveTheme, hv]

/-- C2 witness: the contract at a concrete table. -/
theorem resolve_table_contract_witness :
    resolveLang [("js", ([⟨"source.js"⟩] : LanguageInput))] (.str "js")
        = .ok [⟨"source.js"⟩] ∧
    resolveLang [] (.str "md") = .error (.notBundled .language "md") ∧
    resolveTheme [("nord", ⟨"nord"⟩)] (.str "nord") = .ok ⟨"nord"⟩ ∧
    resolveTheme [] (.str "vitesse") = .error (.notBundled .theme "vitesse") :=
  ⟨(resolve_table_contract [("js", ([⟨"source.js"⟩] : LanguageInput))] []).1
      "js" [⟨"source.js"⟩] rfl rfl,
   (resolve_table_contract [] []).2.1 "md" rfl rfl,
   (resolve_table_contract [] [("nord", ⟨"nord"⟩)]).2.2.1 "nord" ⟨"nord"⟩ rfl,
   (resolve_table_contract [] []).2.2.2.1 "vitesse" rfl⟩

lemma resolveOptions_error_theme {bl : Table LanguageInput} {bt : Table ThemeInput}
    {opts : HighlighterOptions} {e : Err}
    (h : mapOrThrow (fun i => resolveTheme bt i) (opts.themes?.getD []) = .error e) :
    resolveOptions bl bt opts = .error e := by
  rw [resolveOptions, h]

lemma resolveOptions_error_lang {bl : Table LanguageInput} {bt : Table ThemeInput}
    {opts : HighlighterOptions} {ts : List ThemeInput} {e : Err}
    (ht : mapOrThrow (fun i => resolveTheme bt i) (opts.themes?.getD []) = .ok ts)
    (h : mapOrThrow (fun i => resolveLang bl i) (opts.langs?.getD []) = .error e) :
    resolveOptions bl bt opts = .error e := by
  rw [resolveOptions, ht, h]

/-- C4: if the requested options contain an unresolvable theme or
language reference, `getHighlighter` fails with a `NotBundled` error,
and the engine constructor is never invoked: the result is the same
error for every constructor `mkCore`, including one that would always
fail or always succeed. -/
theorem getHighlighter_failfast (bl : Table LanguageInput) (bt : Table ThemeInput)
    (opts : HighlighterOptions)
    (h : (∃ r ∈ opts.themes?.getD [], ∃ e, resolveTheme bt r = .error e) ∨
         (∃ r ∈ opts.langs?.getD [], ∃ e, resolveLang bl r = .error e)) :
    ∃ k id,
      (∀ mkCore, getHighlighterWith mkCore bl bt opts
        = .error (.notBundled k id)) ∧
      getHighlighter bl bt opts = .error (.notBundled k id) := by
  cases hmt : mapOrThrow (fun i => resolveTheme bt i) (opts.themes?.getD []) with
  | error e =>
    obtain ⟨r, _, hre⟩ := mapOrThrow_error_mem hmt
    obtain ⟨id, rfl, -, -⟩ := resolveTheme_error_shape hre
    refine ⟨.theme, id, fun mkCore => ?_, ?_⟩
    · rw [getHighlighterWith, resolveOptions_error_theme hmt]
    · rw [getHighlighter, getHighlighterWith, resolveOptions_error_theme hmt]
  | ok ts =>
    have hlang : ∃ r ∈ opts.langs?.getD [], ∃ e, resolveLang bl r = .error e := by
      rcases h with ⟨r, hrm, e, hre⟩ | hl
      · obtain ⟨b, hb⟩ := mapOrThrow_ok_mem hmt hrm
        rw [hb] at hre
        cases hre
      · exact hl
    obtain ⟨r, hrm, e, hre⟩ := hlang
    obtain ⟨e', hml, r', _, hre'⟩ := mapOrThrow_error_of_mem hrm hre
    obtain ⟨id, rfl, -, -, -⟩ := resolveLang_error_shape hre'
    refine ⟨.language, id, fun mkCore => ?_, ?_⟩
    · rw [getHighlighterWith, resolveOptions_error_lang hmt hml]
    · rw [getHighlighter, getHighlighterWith, resolveOptions_error_lang hmt hml]

/-- C4 witness: a request for the language id `"unknown-lang"` against
empty bundle tables. -/
theorem getHighlighter_failfast_witness :
    ∃ k id,
      (∀ mkCore, getHighlighterWith mkCore [] []
          { langs? := some [.str "unknown-lang"] }
        = .error (.notBundled k id)) ∧
      getHighlighter [] [] { langs? := some [.str "unknown-lang"] }
        = .error (.notBundled k id) :=
  getHighlighter_failfast [] [] { langs? := some [.str "unknown-lang"] }
    (Or.inr ⟨.str "unknown-lang", by simp,
      .notBundled .language "unknown-lang", rfl⟩)

/-- C9 counterexample: a whitespace-only language list is not treated
as valid: `getHighlighter` with `langs: [" "]` fails with `NotBundled`
(the id `" "` is neither the plaintext marker nor a table key), refuting
the claim's "whitespace-only list" clause. -/
theorem getHighlighter_whitespace_counterexample :
    getHighlighter [] [] { themes? := some [], langs? := some [.str " "] }
      = .error (.notBundled .language " ") := rfl

/-- C9 (amended): an empty `themes`/`langs` list, or an omitted field,
is valid: resolution yields the empty sequence of definitions and
`getHighlighter` succeeds without error (with the engine constructed on
empty initial load sets). -/
theorem getHighlighter_empty_ok (bl : Table LanguageInput) (bt : Table ThemeInput)
    (opts : HighlighterOptions)
    (ht : opts.themes? = none ∨ opts.themes? = some [])
    (hl : opts.langs? = none ∨ opts.langs? = some []) :
    resolveOptions bl bt opts = .ok { themes := [], langs := [] } ∧
    getHighlighter bl bt opts
      = .ok (wrapCore bl bt (coreObjOf (getHighlighterCore
          { themes := [], langs := [] }))) := by
  have h1 : opts.themes?.getD [] = [] := by rcases ht with h | h <;> rw [h] <;> rfl
  have h2 : opts.langs?.getD [] = [] := by rcases hl with h | h <;> rw [h] <;> rfl
  have hro : resolveOptions bl bt opts = .ok { themes := [], langs := [] } := by
    rw [resolveOptions, h1, h2]
    rfl
  exact ⟨hro, by rw [getHighlighter, getHighlighterWith, hro]⟩

/-- C9 witness: both fields omitted, and both fields empty lists. -/
theorem getHighlighter_empty_ok_witness :
    (resolveOptions [] [] {} = .ok { themes := [], langs := [] } ∧
      getHighlighter [] [] {}
        = .ok (wrapCore [] [] (coreObjOf (getHighlighterCore
            { themes := [], langs := [] })))) ∧
    (resolveOptions [] [] { themes? := some [], langs? := some [] }
        = .ok { themes := [], langs := [] } ∧
      getHighlighter [] [] { themes? := some [], langs? := some [] }
        = .ok (wrapCore [] [] (coreObjOf (getHighlighterCore
            { themes := [], langs := [] })))) :=
  ⟨getHighlighter_empty_ok [] [] {} (Or.inl rfl) (Or.inl rfl),
   getHighlighter_empty_ok [] [] { themes? := some [], langs? := some [] }
     (Or.inr rfl) (Or.inr rfl)⟩

/-- C7: the object returned by `getHighlighter` wraps the engine: its
`loadLanguage`/`loadTheme` pass every argument through
`resolveLang`/`resolveTheme` (so bundle-id strings are accepted after
construction, and an unknown id fails with the resolver's error), while
the other entry points are the engine's own, unmodified; and a
successful `getHighlighter` returns exactly the wrapped constructed
engine. -/
theorem wrapper_contract (bl : Table LanguageInput) (bt : Table ThemeInput)
    (core : CoreObj) :
    (∀ code opts, (wrapCore bl bt core).codeToHtml code opts
      = core.codeToHtml code opts) ∧
    (wrapCore bl bt core).codeToThemedTokens = core.codeToThemedTokens ∧
    (wrapCore bl bt core).codeToHtmlThemes = core.codeToHtmlThemes ∧
    (∀ refs ds, mapOrThrow (fun l => resolveLang bl l) refs = .ok ds →
      (wrapCore bl bt core).loadLanguage refs = .ok (core.loadLanguage ds)) ∧
    (∀ refs e, mapOrThrow (fun l => resolveLang bl l) refs = .error e →
      (wrapCore bl bt core).loadLanguage refs = .error e) ∧
    (∀ refs ds, mapOrThrow (fun t => resolveTheme bt t) refs = .ok ds →
      (wrapCore bl bt core).loadTheme refs = .ok (core.loadTheme ds)) ∧
    (∀ refs e, mapOrThrow (fun t => resolveTheme bt t) refs = .error e →
      (wrapCore bl bt core).loadTheme refs = .error e) ∧
    (∀ opts copts, resolveOptions bl bt opts = .ok copts →
      getHighlighter bl bt opts
        = .ok (wrapCore bl bt (coreObjOf (getHighlighterCore copts)))) := by
  refine ⟨fun code opts => rfl, rfl, rfl, ?_, ?_, ?_, ?_, ?_⟩
  · intro refs ds h
    show (mapOrThrow (fun l => resolveLang bl l) refs).map core.loadLanguage
      = .ok (core.loadLanguage ds)
    rw [h]
    rfl
  · intro refs e h
    show (mapOrThrow (fun l => resolveLang bl l) refs).map core.loadLanguage
      = .error e
    rw [h]
    rfl
  · intro refs ds h
    show (mapOrThrow (fun t => resolveTheme bt t) refs).map core.loadTheme
      = .ok (core.loadTheme ds)
    rw [h]
    rfl
  · intro refs e h
    show (mapOrThrow (fun t => resolveTheme bt t) refs).map core.loadTheme
      = .error e
    rw [h]
    rfl
  · intro opts copts h
    rw [getHighlighter, getHighlighterWith, h]

/-- C7 witness: a concrete engine and table; a bundle-id string is
accepted by the wrapper's `loadTheme` after construction, and an
unknown id is rejected. -/
theorem wrapper_contract_witness :
    (wrapCore [] [("nord", ⟨"nord"⟩)] (coreObjOf ⟨[], []⟩)).loadTheme
        [.str "nord"]
      = .ok ((coreObjOf ⟨[], []⟩).loadTheme [⟨"nord"⟩]) ∧
    (wrapCore [] [] (coreObjOf ⟨[], []⟩)).loadLanguage [.str "bad"]
      = .error (.notBundled .language "bad") ∧
    (wrapCore [] [] (coreObjOf ⟨[], []⟩)).codeToThemedTokens
      = (coreObjOf ⟨[], []⟩).codeToThemedTokens :=
  ⟨(wrapper_contract [] [("nord", ⟨"nord"⟩)] (coreObjOf ⟨[], []⟩)).2.2.2.2.2.1
      [.str "nord"] [⟨"nord"⟩] rfl,
   (wrapper_contract [] [] (coreObjOf ⟨[], []⟩)).2.2.2.2.1
      [.str "bad"] (.notBundled .language "bad") rfl,
   (wrapper_contract [] [] (coreObjOf ⟨[], []⟩)).2.1⟩

lemma reachable_invariant (bl : Table LanguageInput) (bt : Table ThemeInput)
    {st : FactoryState} (h : Reachable bl bt st) :
    st.constructions ≤ 1 ∧ (st.slot = none → st.constructions = 0) := by
  induction h with
  | init => exact ⟨Nat.zero_le 1, fun _ => rfl⟩
  | step hr hs ih =>
    rename_i st st'
    cases hs with
    | start opts =>
      cases hslot : st.slot with
      | none =>
        have h0 : st.constructions = 0 := ih.2 hslot
        simp [ensureStart, hslot, h0]
      | some p => simpa [ensureStart, hslot] using ih
    | settle =>
      cases hslot : st.slot with
      | none => simpa [settleConstruction, hslot] using ih
      | some p =>
        obtain ⟨i, ps⟩ := p
        cases ps with
        | pending opts => simpa [settleConstruction, hslot] using ih.1
        | ready s => simpa [settleConstruction, hslot] using ih
        | failed e => simpa [settleConstruction, hslot] using ih
    | resume opts =>
      cases hslot : st.slot with
      | none => simpa [ensureResume, hslot] using ih
      | some p =>
        obtain ⟨i, ps⟩ := p
        cases ps with
        | pending o => simpa [ensureResume, hslot] using ih
        | failed e => simpa [ensureResume, hslot] using ih
        | ready s =>
          cases hmt : mapOrThrow (fun t => resolveTheme bt (.str t))
              (toArray opts.theme) with
          | error e => simpa [ensureResume, hslot, hmt] using ih
          | ok ts =>
            cases hml : mapOrThrow (fun l => resolveLang bl (.str l))
                (toArray opts.lang) with
            | error e => simpa [ensureResume, hslot, hmt, hml] using ih
            | ok ls => simpa [ensureResume, hslot, hmt, hml] using ih.1

/-- C1: the singleton constructs at most once.  If two `ensure` calls
make their entry before the first construction settles, the second
observes the promise stored by the first: exactly one `getHighlighter`
invocation happens and both callers hold the same promise (hence
receive the same instance when it settles).  Moreover every state a
factory can reach from creation has made at most one construction. -/
theorem singleton_single_construction (bl : Table LanguageInput)
    (bt : Table ThemeInput) :
    (∀ st o1 o2, st.slot = none →
      (ensureStart (ensureStart st o1).1 o2).2 = (ensureStart st o1).2 ∧
      (ensureStart (ensureStart st o1).1 o2).1.constructions
        = st.constructions + 1) ∧
    (∀ st, Reachable bl bt st → st.constructions ≤ 1) := by
  constructor
  · intro st o1 o2 h
    simp [ensureStart, h]
  · intro st h
    exact (reachable_invariant bl bt h).1

/-- C1 witness: two back-to-back entries on a fresh factory. -/
theorem singleton_single_construction_witness :
    ((ensureStart (ensureStart initState ⟨.one "a", .one "x"⟩).1
        ⟨.one "b", .one "y"⟩).2
      = (ensureStart initState ⟨.one "a", .one "x"⟩).2 ∧
     (ensureStart (ensureStart initState ⟨.one "a", .one "x"⟩).1
        ⟨.one "b", .one "y"⟩).1.constructions
      = initState.constructions + 1) ∧
    initState.constructions ≤ 1 :=
  ⟨(singleton_single_construction [] []).1 initState
      ⟨.one "a", .one "x"⟩ ⟨.one "b", .one "y"⟩ rfl,
   (singleton_single_construction [] []).2 initState .init⟩

/-- C6: when the slot holds a rejected construction promise, it is
never reset: every later `ensure` entry observes the same promise, the
settled rejection is re-raised to every caller, and no operation changes
the state — in particular no second construction is ever attempted. -/
theorem singleton_failure_sticky (bl : Table LanguageInput)
    (bt : Table ThemeInput) (st : FactoryState) (i : Nat) (e : Err)
    (opts : EnsureOpts) (h : st.slot = some (i, .failed e)) :
    ensureStart st opts = (st, i) ∧
    settleConstruction bl bt st = st ∧
    ensureResume bl bt st opts = (st, .error e) := by
  refine ⟨?_, ?_, ?_⟩ <;> simp [ensureStart, settleConstruction, ensureResume, h]

/-- C6 witness: a factory whose first construction failed (theme
`"missing"` not bundled); the later call re-raises that same error and
leaves everything unchanged. -/
theorem singleton_failure_sticky_witness :
    ensureStart
        (settleConstruction [] []
          (ensureStart initState ⟨.one "missing", .one "x"⟩).1)
        ⟨.one "other", .one "y"⟩
      = (settleConstruction [] []
          (ensureStart initState ⟨.one "missing", .one "x"⟩).1, 0) ∧
    settleConstruction [] []
        (settleConstruction [] []
          (ensureStart initState ⟨.one "missing", .one "x"⟩).1)
      = settleConstruction [] []
          (ensureStart initState ⟨.one "missing", .one "x"⟩).1 ∧
    ensureResume [] []
        (settleConstruction [] []
          (ensureStart initState ⟨.one "missing", .one "x"⟩).1)
        ⟨.one "other", .one "y"⟩
      = (settleConstruction [] []
          (ensureStart initState ⟨.one "missing", .one "x"⟩).1,
         .error (.notBundled .theme "missing")) :=
  singleton_failure_sticky [] [] _ 0 (.notBundled .theme "missing")
    ⟨.one "other", .one "y"⟩ rfl

lemma mem_loadThemeC {c : CoreInst} {ts : List ThemeInput} {t : ThemeInput}
    (h : t ∈ ts ∨ t ∈ c.themes) : t ∈ (c.loadThemeC ts).themes := by
  rw [CoreInst.loadThemeC]
  rcases h with h | h
  · by_cases hc : t ∈ c.themes
    · exact List.mem_append_left _ hc
    · exact List.mem_append_right _ (List.mem_filter.mpr ⟨h, by simp [hc]⟩)
  · exact List.mem_append_left _ h

lemma mem_loadLanguageC {c : CoreInst} {ls : List LanguageInput} {l : LanguageInput}
    (h : l ∈ ls ∨ l ∈ c.langs) : l ∈ (c.loadLanguageC ls).langs := by
  rw [CoreInst.loadLanguageC]
  rcases h with h | h
  · by_cases hc : l ∈ c.langs
    · exact List.mem_append_left _ hc
    · exact List.mem_append_right _ (List.mem_filter.mpr ⟨h, by simp [hc]⟩)
  · exact List.mem_append_left _ h

lemma loadThemeC_langs (c : CoreInst) (ts : List ThemeInput) :
    (c.loadThemeC ts).langs = c.langs := rfl

lemma loadLanguageC_themes (c : CoreInst) (ls : List LanguageInput) :
    (c.loadLanguageC ls).themes = c.themes := rfl

/-- C5: on a slot that already holds a ready instance, the `ensure`
entry constructs nothing (it observes the existing promise) and the
resumption issues both the theme load and the language load, returning
the instance extended by both (the two loads commute — they touch
disjoint instance fields — so the unspecified order between them is
immaterial); consequently, ensuring theme `A` and then theme `B` yields
one instance, built once, supporting both themes. -/
theorem ensure_incremental (bl : Table LanguageInput) (bt : Table ThemeInput) :
    (∀ st i s opts ts ls,
      st.slot = some (i, .ready s) →
      mapOrThrow (fun t => resolveTheme bt (.str t)) (toArray opts.theme)
        = .ok ts →
      mapOrThrow (fun l => resolveLang bl (.str l)) (toArray opts.lang)
        = .ok ls →
      ensureStart st opts = (st, i) ∧
      ensureResume bl bt st opts
        = ({ st with slot := some (i, .ready ((s.loadThemeC ts).loadLanguageC ls)) },
           .ok ((s.loadThemeC ts).loadLanguageC ls)) ∧
      (s.loadThemeC ts).loadLanguageC ls = (s.loadLanguageC ls).loadThemeC ts) ∧
    (∀ A B x dA dB dx,
      bt.get? A = some dA → bt.get? B = some dB →
      isPlaintext x = false → bl.get? x = some dx →
      ∃ s2,
        (ensureResume bl bt
          (settleConstruction bl bt
            (ensureStart initState ⟨.one A, .one x⟩).1)
          ⟨.one B, .one x⟩).2 = .ok s2 ∧
        dA ∈ s2.themes ∧ dB ∈ s2.themes ∧ dx ∈ s2.langs ∧
        (ensureResume bl bt
          (settleConstruction bl bt
            (ensureStart initState ⟨.one A, .one x⟩).1)
          ⟨.one B, .one x⟩).1.constructions = 1) := by
  constructor
  · intro st i s opts ts ls hslot hmt hml
    refine ⟨by simp [ensureStart, hslot], by simp [ensureResume, hslot, hmt, hml], rfl⟩
  · intro A B x dA dB dx hA hB hpx hx
    have h1 : (ensureStart initState ⟨.one A, .one x⟩).1
        = { slot := some (0, .pending
              { themes? := some [.str A], langs? := some [.str x] }),
            nextId := 1, constructions := 1 } := by
      simp [ensureStart, initState, toArray]
    have h2 : settleConstruction bl bt (ensureStart initState ⟨.one A, .one x⟩).1
        = { slot := some (0, .ready { themes := [dA], langs := [dx] }),
            nextId := 1, constructions := 1 } := by
      rw [h1]
      simp [settleConstruction, getHighlighterInst, resolveOptions, mapOrThrow,
        resolveTheme, resolveLang, hA, hx, hpx, getHighlighterCore, Except.map]
    rw [h2]
    have hmt : mapOrThrow (fun t => resolveTheme bt (.str t)) (toArray (⟨.one B, .one x⟩ : EnsureOpts).theme)
        = .ok [dB] := by
      simp [toArray, mapOrThrow, resolveTheme, hB]
    have hml : mapOrThrow (fun l => resolveLang bl (.str l)) (toArray (⟨.one B, .one x⟩ : EnsureOpts).lang)
        = .ok [dx] := by
      simp [toArray, mapOrThrow, resolveLang, hpx, hx]
    refine ⟨(({ themes := [dA], langs := [dx] } : CoreInst).loadThemeC [dB]).loadLanguageC [dx],
      by simp [ensureResume, hmt, hml], ?_, ?_, ?_,
      by simp [ensureResume, hmt, hml]⟩
    · rw [loadLanguageC_themes]
      exact mem_loadThemeC (Or.inr (by simp))
    · rw [loadLanguageC_themes]
      exact mem_loadThemeC (Or.inl (by simp))
    · exact mem_loadLanguageC (Or.inl (by simp))

/-- C5 witness: concrete tables with themes `"A"`, `"B"` and language
`"x"`. -/
theorem ensure_incremental_witness :
    (ensureStart
        ({ slot := some (0, .ready { themes := [⟨"tA"⟩], langs := [[⟨"sx"⟩]] }),
           nextId := 1, constructions := 1 } : FactoryState)
        ⟨.one "B", .one "x"⟩
      = ({ slot := some (0, .ready { themes := [⟨"tA"⟩], langs := [[⟨"sx"⟩]] }),
           nextId := 1, constructions := 1 }, 0)) ∧
    (∃ s2,
      (ensureResume [("x", [⟨"sx"⟩])] [("A", ⟨"tA"⟩), ("B", ⟨"tB"⟩)]
        (settleConstruction [("x", [⟨"sx"⟩])] [("A", ⟨"tA"⟩), ("B", ⟨"tB"⟩)]
          (ensureStart initState ⟨.one "A", .one "x"⟩).1)
        ⟨.one "B", .one "x"⟩).2 = .ok s2 ∧
      (⟨"tA"⟩ : ThemeInput) ∈ s2.themes ∧ (⟨"tB"⟩ : ThemeInput) ∈ s2.themes ∧
      ([⟨"sx"⟩] : LanguageInput) ∈ s2.langs ∧
      (ensureResume [("x", [⟨"sx"⟩])] [("A", ⟨"tA"⟩), ("B", ⟨"tB"⟩)]
        (settleConstruction [("x", [⟨"sx"⟩])] [("A", ⟨"tA"⟩), ("B", ⟨"tB"⟩)]
          (ensureStart initState ⟨.one "A", .one "x"⟩).1)
        ⟨.one "B", .one "x"⟩).1.constructions = 1) :=
  ⟨((ensure_incremental [("x", [⟨"sx"⟩])] [("A", ⟨"tA"⟩), ("B", ⟨"tB"⟩)]).1
      { slot := some (0, .ready { themes := [⟨"tA"⟩], langs := [[⟨"sx"⟩]] }),
        nextId := 1, constructions := 1 }
      0 { themes := [⟨"tA"⟩], langs := [[⟨"sx"⟩]] } ⟨.one "B", .one "x"⟩
      [⟨"tB"⟩] [[⟨"sx"⟩]] rfl rfl rfl).1,
   (ensure_incremental [("x", [⟨"sx"⟩])] [("A", ⟨"tA"⟩), ("B", ⟨"tB"⟩)]).2
      "A" "B" "x" ⟨"tA"⟩ ⟨"tB"⟩ [⟨"sx"⟩] rfl rfl rfl rfl⟩

/-- C8: `codeToHtmlThemes` collects only the non-empty values of the
theme mapping before ensuring loads: an entry whose value is `undefined`
contributes nothing wherever it sits in the mapping, and in the spec's
scenario (`{light: "nord", dark: undefined}`) only `"nord"` is
requested, resolution does not fail, and the constructed instance holds
exactly the one theme definition plus the language. -/
theorem codeToHtmlThemes_drops_undefined :
    (∀ (l1 l2 : List (String × Option String)) (role : String),
      collectThemeValues (l1 ++ (role, none) :: l2)
        = collectThemeValues (l1 ++ l2)) ∧
    (∀ (bl : Table LanguageInput) (bt : Table ThemeInput)
        (r1 r2 tid lg : String) (dN : ThemeInput) (dl : LanguageInput),
      tid ≠ "" → bt.get? tid = some dN →
      isPlaintext lg = false → bl.get? lg = some dl →
      codeToHtmlThemesOpts lg [(r1, some tid), (r2, none)]
        = { lang := .one lg, theme := .arr [tid] } ∧
      (settleConstruction bl bt
        (ensureStart initState
          (codeToHtmlThemesOpts lg [(r1, some tid), (r2, none)])).1).slot
        = some (0, .ready { themes := [dN], langs := [dl] })) := by
  constructor
  · intro l1 l2 role
    simp [collectThemeValues, List.map_append, List.filterMap_append]
  · intro bl bt r1 r2 tid lg dN dl htid hN hplg hlg
    have hopts : codeToHtmlThemesOpts lg [(r1, some tid), (r2, none)]
        = { lang := .one lg, theme := .arr [tid] } := by
      simp [codeToHtmlThemesOpts, collectThemeValues, htid]
    refine ⟨hopts, ?_⟩
    rw [hopts]
    simp [ensureStart, initState, toArray, settleConstruction,
      getHighlighterInst, resolveOptions, mapOrThrow, resolveTheme,
      resolveLang, hN, hlg, hplg, getHighlighterCore, Except.map]

/-- C8 witness: the scenario with `themes: {light: "nord", dark:
undefined}` against concrete tables. -/
theorem codeToHtmlThemes_drops_undefined_witness :
    codeToHtmlThemesOpts "js" [("light", some "nord"), ("dark", none)]
      = { lang := .one "js", theme := .arr ["nord"] } ∧
    (settleConstruction [("js", [⟨"source.js"⟩])] [("nord", ⟨"nord"⟩)]
      (ensureStart initState
        (codeToHtmlThemesOpts "js" [("light", some "nord"), ("dark", none)])).1).slot
      = some (0, .ready { themes := [⟨"nord"⟩], langs := [[⟨"source.js"⟩]] }) :=
  (codeToHtmlThemes_drops_undefined.2 [("js", [⟨"source.js"⟩])]
    [("nord", ⟨"nord"⟩)] "light" "dark" "nord" "js" ⟨"nord"⟩ [⟨"source.js"⟩]
    (by simp) rfl rfl rfl)

/-- C10 (implicit): `filter(Boolean)` filters by JS truthiness, so an
empty-string theme value is dropped exactly like `undefined`: it never
reaches the resolver, and no `NotBundled` error arises even though the
empty string is a key of no bundle table. -/
theorem codeToHtmlThemes_drops_empty_string :
    (∀ (l1 l2 : List (String × Option String)) (role : String),
      collectThemeValues (l1 ++ (role, some "") :: l2)
        = collectThemeValues (l1 ++ l2)) ∧
    (∀ (bl : Table LanguageInput) (bt : Table ThemeInput)
        (r1 r2 tid lg : String) (dN : ThemeInput) (dl : LanguageInput),
      tid ≠ "" → bt.get? "" = none → bt.get? tid = some dN →
      isPlaintext lg = false → bl.get? lg = some dl →
      codeToHtmlThemesOpts lg [(r1, some tid), (r2, some "")]
        = { lang := .one lg, theme := .arr [tid] } ∧
      (settleConstruction bl bt
        (ensureStart initState
          (codeToHtmlThemesOpts lg [(r1, some tid), (r2, some "")])).1).slot
        = some (0, .ready { themes := [dN], langs := [dl] })) := by
  constructor
  · intro l1 l2 role
    simp [collectThemeValues, List.map_append, List.filterMap_append]
  · intro bl bt r1 r2 tid lg dN dl htid hempty hN hplg hlg
    have hopts : codeToHtmlThemesOpts lg [(r1, some tid), (r2, some "")]
        = { lang := .one lg, theme := .arr [tid] } := by
      simp [codeToHtmlThemesOpts, collectThemeValues, htid]
    refine ⟨hopts, ?_⟩
    rw [hopts]
    simp [ensureStart, initState, toArray, settleConstruction,
      getHighlighterInst, resolveOptions, mapOrThrow, resolveTheme,
      resolveLang, hN, hlg, hplg, getHighlighterCore, Except.map]

/-- C10 witness: `themes: {light: "nord", dark: ""}` against concrete
tables not containing `""`. -/
theorem codeToHtmlThemes_drops_empty_string_witness :
    codeToHtmlThemesOpts "js" [("light", some "nord"), ("dark", some "")]
      = { lang := .one "js", theme := .arr ["nord"] } ∧
    (settleConstruction [("js", [⟨"source.js"⟩])] [("nord", ⟨"nord"⟩)]
      (ensureStart initState
        (codeToHtmlThemesOpts "js" [("light", some "nord"), ("dark", some "")])).1).slot
      = some (0, .ready { themes := [⟨"nord"⟩], langs := [[⟨"source.js"⟩]] }) :=
  (codeToHtmlThemes_drops_empty_string.2 [("js", [⟨"source.js"⟩])]
    [("nord", ⟨"nord"⟩)] "light" "dark" "nord" "js" ⟨"nord"⟩ [⟨"source.js"⟩]
    (by simp) rfl rfl rfl rfl)

end Shikiji
